import Mathlib

/-!
Verification of the sabda-scrapper service core, translated from `app.py`:
the sliding-window rate limiter (`rate_limit_check`), the TTL content cache
(`get_cached_content` / `set_cached_content`), the JWT token service
(`generate_token` / `verify_token`, with its `lru_cache` memoization), the
parameter validation of `GET /api/sabda`, and the tail of the
content-extraction pipeline (equal-split fallback, paragraph post-cleaning
and record assembly in `extract_content`).

Embedding conventions: Python strings are embedded as `List Char`;
`datetime` instants are embedded as natural numbers counting seconds (the
code only compares timestamp differences against constant second
thresholds, so a second-resolution clock is faithful).  The external
collaborators `hashlib.sha256(...).hexdigest()` and the HS256 MAC inside
`jwt.encode` / `jwt.decode` are abstracted as explicit function parameters
`H` and `mac`; `jwt.decode` validates the signature and then raises
`ExpiredSignatureError` when the embedded `exp` is not in the future, which
is modelled by the `exp ≤ now` test in `verify_token`.
-/

namespace Sabda

/-! ### Python string primitives

`pySplitWs` models Python `str.split()` with no argument (split on runs of
whitespace, producing no empty tokens), `pyJoin` models `' '.join(...)`,
and `pyStrip` models `str.strip()`.  Whitespace is Lean's
`Char.isWhitespace` (space, tab, newline, carriage return), covering the
whitespace characters occurring in the scraped text. -/

/-- Model of Python `str.split()`: splits on runs of whitespace and never
produces empty tokens. -/
def pySplitWs : List Char → List (List Char)
  | [] => []
  | c :: cs =>
    if c.isWhitespace then pySplitWs cs
    else
      match cs with
      | [] => [[c]]
      | d :: _ =>
        if d.isWhitespace then [c] :: pySplitWs cs
        else
          match pySplitWs cs with
          | [] => [[c]]
          | w :: ws => (c :: w) :: ws

/-- Model of Python `' '.join(tokens)`. -/
def pyJoin : List (List Char) → List Char
  | [] => []
  | [w] => w
  | w :: ws => w ++ ' ' :: pyJoin ws

/-- Model of Python `str.strip()`: drop leading and trailing whitespace. -/
def pyStrip (s : List Char) : List Char :=
  ((s.dropWhile Char.isWhitespace).reverse.dropWhile Char.isWhitespace).reverse

/-! ### Rate limiter (`rate_limit_check`, app.py lines 70-85)

The per-client window `request_counts[client_ip]` is a list of instants.
One call prunes the entries that are 60 seconds old or older
(`(now - req_time).total_seconds() < 60` keeps an entry), rejects without
recording when the pruned count has reached `MAX_REQUESTS_PER_MINUTE`, and
otherwise records `now` and admits. -/

/-- One call of `rate_limit_check` for a single client: returns the
admission decision and the updated window. -/
def rate_limit_check (maxPerMinute now : Nat) (window : List Nat) : Bool × List Nat :=
  let pruned := window.filter (fun t => now - t < 60)
  if maxPerMinute ≤ pruned.length then (false, pruned)
  else (true, pruned ++ [now])

/-- A sequence of `rate_limit_check` calls at the given instants, threading
the client's window; returns the decisions and the final window. -/
def runLimiter (maxPerMinute : Nat) : List Nat → List Nat → List Bool × List Nat
  | [], window => ([], window)
  | t :: ts, window =>
    let r := rate_limit_check maxPerMinute t window
    let rest := runLimiter maxPerMinute ts r.2
    (r.1 :: rest.1, rest.2)

/-! ### Content cache (`get_cached_content` / `set_cached_content`, app.py lines 87-102)

`content_cache` maps a key to `(content, timestamp)`.  The Python `dict` is
embedded as an association list with unique keys looked up by
`List.lookup`; `del content_cache[key]` is key erasure. -/

/-- Erase an entry from the cache, modelling `del content_cache[cache_key]`. -/
def eraseKey (cache : List (String × α × Nat)) (key : String) : List (String × α × Nat) :=
  cache.filter (fun e => e.1 != key)

/-- `get_cached_content`: return the stored content while
`(now - timestamp) < CACHE_TTL`; once that age is reached, delete the entry
and report a miss; a never-stored key is a miss with the cache untouched.
Returns the reported content and the resulting cache. -/
def get_cached_content (ttl now : Nat) (cache : List (String × α × Nat)) (key : String) :
    Option α × List (String × α × Nat) :=
  match cache.lookup key with
  | some (content, timestamp) =>
    if now - timestamp < ttl then (some content, cache)
    else (none, eraseKey cache key)
  | none => (none, cache)

/-- `set_cached_content`: store `(content, now)` under `key`, replacing any
previous entry (Python `dict` assignment). -/
def set_cached_content (now : Nat) (cache : List (String × α × Nat)) (key : String)
    (content : α) : List (String × α × Nat) :=
  (key, content, now) :: eraseKey cache key

/-! ### Token service (`generate_token` / `verify_token`, app.py lines 104-127)

A JWT is embedded as its decoded payload `{api_key, exp, iat}` plus a MAC
value over the payload.  `H` abstracts `hashlib.sha256(...).hexdigest()`
and `mac` abstracts the HS256 MAC of `jwt.encode` keyed by the server
secret. -/

/-- The JWT payload built by `generate_token`. -/
structure JwtPayload where
  api_key : String
  exp : Nat
  iat : Nat
deriving DecidableEq, Repr

/-- A signed token: payload plus HS256 MAC value. -/
structure JwtToken where
  payload : JwtPayload
  sig : Nat
deriving DecidableEq, Repr

/-- The configured accepted API keys (`API_KEYS.values()` with the default
environment). -/
def API_KEYS : List String :=
  ["sabda_flutter_2025_secure_key", "sabda_mobile_2025_secure_key"]

/-- `generate_token` (ignoring the `lru_cache` wrapper, modelled separately
by `generate_token_cached`): payload holds the hash of the key, expiry
`now + lifetime`, issue instant `now`; the token is signed with the
server-held secret. -/
def generate_token (H : String → String) (mac : String → JwtPayload → Nat)
    (secret : String) (lifetime now : Nat) (api_key : String) : JwtToken :=
  { payload := { api_key := H api_key, exp := now + lifetime, iat := now },
    sig := mac secret { api_key := H api_key, exp := now + lifetime, iat := now } }

/-- `verify_token`: `jwt.decode` checks the HS256 MAC against the server
secret (failure raises `InvalidTokenError`, returned as `None`) and then
the expiry claim (`ExpiredSignatureError` when `exp` is not in the future,
returned as `None`). -/
def verify_token (mac : String → JwtPayload → Nat) (secret : String) (now : Nat)
    (token : JwtToken) : Option JwtPayload :=
  if token.sig = mac secret token.payload then
    if token.payload.exp ≤ now then none
    else some token.payload
  else none

/-- The issuance path of `POST /api/auth/token`: the key must be one of
`API_KEYS.values()`, otherwise a 401 `AuthenticationError` (modelled as
`none`). -/
def issue_token (H : String → String) (mac : String → JwtPayload → Nat)
    (secret : String) (lifetime now : Nat) (api_key : String) : Option JwtToken :=
  if api_key ∈ API_KEYS then some (generate_token H mac secret lifetime now api_key)
  else none

/-- The `@lru_cache(maxsize=128)` wrapper of `generate_token`, memoized on
the `api_key` argument alone.  The memo is threaded explicitly; eviction at
128 entries is never reached because the route only ever calls this with
the two configured keys. -/
def generate_token_cached (H : String → String) (mac : String → JwtPayload → Nat)
    (secret : String) (lifetime now : Nat) (memo : List (String × JwtToken))
    (api_key : String) : JwtToken × List (String × JwtToken) :=
  match memo.lookup api_key with
  | some t => (t, memo)
  | none =>
    let t := generate_token H mac secret lifetime now api_key
    (t, (api_key, t) :: memo)

/-! ### Parameter validation of `GET /api/sabda` (app.py lines 499-556)

`request.args.get('year', type=int)` yields `None` on a missing or
unparsable parameter and `if not year` also rejects the integer 0; the
`date` parameter is rejected when missing or empty, when it fails
`re.match(r'^\d{4}$', date)`, and when `int(date[:2])` / `int(date[2:])`
fall outside 01-12 / 01-31.  Every rejection in this function is a 400
response whose metadata carries `error_type = "ValidationError"`, modelled
by the single constructor `validationError`; `scrape` marks the call of
`scraper.scrape_sabda_content(year, date)`. -/

/-- Outcome of the validation prefix of `get_sabda_content`. -/
inductive SabdaOutcome where
  | validationError : SabdaOutcome
  | scrape : Int → List Char → SabdaOutcome
deriving DecidableEq, Repr

/-- Model of `re.match(r'^\d{4}$', date)`: exactly four decimal digits. -/
def isFourDigits (date : List Char) : Bool :=
  date.length == 4 && date.all Char.isDigit

/-- Model of Python `int` on a digit string. -/
def digitsToNat (s : List Char) : Nat :=
  s.foldl (fun a c => 10 * a + (c.toNat - 48)) 0

/-- The validation performed by `get_sabda_content` before invoking the
scraper. -/
def get_sabda_validate (currentYear : Int) :
    Option Int → Option (List Char) → SabdaOutcome
  | none, _ => .validationError
  | _, none => .validationError
  | some year, some date =>
    if year = 0 ∨ date = [] then .validationError
    else if year < 2000 ∨ currentYear + 1 < year then .validationError
    else if ¬ isFourDigits date then .validationError
    else
      let month := digitsToNat (date.take 2)
      let day := digitsToNat (date.drop 2)
      if month < 1 ∨ 12 < month ∨ day < 1 ∨ 31 < day then .validationError
      else .scrape year date

/-! ### Extraction pipeline tail (`extract_content`, app.py lines 306-494)

The claims under verification concern the text-fallback tail of
`extract_content`: the equal-split fallback (lines 453-467), the paragraph
post-cleaning pass (lines 469-480) and the record assembly (lines
482-486).  The earlier stages (DOM queries, regex scans, sentence
accumulation) produce `devotional_title`, `potential_paragraphs`,
`content_text` and `clean_text`, which enter here as inputs. -/

/-- The normalized output record of `extract_content`. -/
structure ExtractedContent where
  title : Option (List Char)
  scripture_reference : Option (List Char)
  devotional_title : Option (List Char)
  devotional_content : List (List Char)
  full_text : List Char
  word_count : Nat
  paragraph_count : Nat
deriving DecidableEq, Repr

/-- Lines 453-467 of `app.py`: when the sentence-based pass produced at
most one paragraph and `content_text` is non-empty (Python truthiness),
split the body into three word-contiguous thirds if it has more than 150
words, else use the whole stripped body as the single paragraph; otherwise
keep the sentence-based paragraphs. -/
def equal_split_fallback (potential_paragraphs : List (List Char))
    (content_text : List Char) : List (List Char) :=
  if potential_paragraphs.length ≤ 1 ∧ content_text ≠ [] then
    let words := pySplitWs content_text
    if 150 < words.length then
      let third := words.length / 3
      let para1 := pyJoin (words.take third)
      let para2 := pyJoin ((words.drop third).take third)
      let para3 := pyJoin (words.drop (2 * third))
      [pyStrip para1, pyStrip para2, pyStrip para3]
    else [pyStrip content_text]
  else potential_paragraphs

/-- Model of the regex class `\w` (ASCII word character). -/
def isWordChar (c : Char) : Bool := c.isAlphanum || c == '_'

/-- Lines 472-474 of `app.py`: drop a leading occurrence of the devotional
title (Python truthiness requires it to be present and non-empty) and
strip the remainder. -/
def stripTitleHead (devotional_title : Option (List Char)) (para : List Char) : List Char :=
  match devotional_title with
  | some t => if t ≠ [] ∧ t.isPrefixOf para then pyStrip (para.drop t.length) else para
  | none => para

/-- Line 477 of `app.py`:
`re.sub` of a trailing author tag followed by `.strip()`.  The pattern
matches optional whitespace, an opening bracket, a non-empty run of word
or whitespace characters, a closing bracket and trailing whitespace at the
end of the paragraph; parsing from the reversed paragraph reproduces the
unique possible match of the anchored pattern. -/
def stripAuthorTag (para : List Char) : List Char :=
  match para.reverse.dropWhile Char.isWhitespace with
  | ']' :: rest =>
    (match rest.dropWhile (fun c => isWordChar c || c.isWhitespace) with
     | '[' :: rest2 =>
        if rest.takeWhile (fun c => isWordChar c || c.isWhitespace) = [] then pyStrip para
        else pyStrip rest2.reverse
     | _ => pyStrip para)
  | _ => pyStrip para

/-- Lines 469-480 of `app.py`: the final cleaning pass over the selected
paragraphs, keeping only cleaned paragraphs longer than 50 characters. -/
def clean_paragraphs (devotional_title : Option (List Char))
    (paragraphs : List (List Char)) : List (List Char) :=
  (paragraphs.map (fun p => stripAuthorTag (stripTitleHead devotional_title p))).filter
    (fun p => decide (50 < p.length))

/-- Lines 453-494 of `app.py` on the text-fallback path: equal-split
fallback, post-cleaning, and assembly of the returned record
(`devotional_content`, `full_text`, `word_count = len(clean_text.split())`,
`paragraph_count`). -/
def extract_content_finalize (title scripture_reference devotional_title : Option (List Char))
    (potential_paragraphs : List (List Char)) (content_text clean_text : List Char) :
    ExtractedContent :=
  let paragraphs := equal_split_fallback potential_paragraphs content_text
  let cleaned := clean_paragraphs devotional_title paragraphs
  { title := title
    scripture_reference := scripture_reference
    devotional_title := devotional_title
    devotional_content := cleaned
    full_text := clean_text
    word_count := (pySplitWs clean_text).length
    paragraph_count := cleaned.length }

/-- The same computation with the ambient random stream made explicit: the
Python `random` module is available to the method body but
`extract_content` never samples from it, so the stream is returned
untouched.  Randomness is consumed only upstream, in
`scrape_sabda_content` (`random.uniform(1, 3)`) and `get_random_headers`. -/
def extract_content_run (rng : List Nat)
    (title scripture_reference devotional_title : Option (List Char))
    (potential_paragraphs : List (List Char)) (content_text clean_text : List Char) :
    ExtractedContent × List Nat :=
  (extract_content_finalize title scripture_reference devotional_title potential_paragraphs
     content_text clean_text, rng)

/-! ### Concrete instances of the abstract hash and MAC

Used to instantiate the token theorems on concrete inputs. -/

/-- A concrete stand-in for `hashlib.sha256(...).hexdigest()`. -/
def hashC : String → String := fun _ => "h"

/-- A concrete stand-in for the HS256 MAC of `jwt.encode`. -/
def macC : String → JwtPayload → Nat :=
  fun secret p => secret.length + p.exp + 2 * p.iat + p.api_key.length

/-- C4: `get` on the content cache returns the stored value exactly when
the entry exists and its age `now - storedAt` is strictly below the TTL;
once the age reaches the TTL, `get` deletes the entry and reports a miss;
and `get` on a never-stored key reports a miss without modifying the
cache. -/
theorem cache_get_spec {α : Type} (ttl now : Nat) (cache : List (String × α × Nat))
    (key : String) :
    (∀ content timestamp, cache.lookup key = some (content, timestamp) →
        now - timestamp < ttl →
        get_cached_content ttl now cache key = (some content, cache))
    ∧ (∀ content timestamp, cache.lookup key = some (content, timestamp) →
        ttl ≤ now - timestamp →
        get_cached_content ttl now cache key = (none, eraseKey cache key))
    ∧ (cache.lookup key = none →
        get_cached_content ttl now cache key = (none, cache)) := by
  refine ⟨fun content timestamp h1 h2 => ?_, fun content timestamp h1 h2 => ?_,
    fun h1 => ?_⟩
  · simp [get_cached_content, h1, h2]
  · simp [get_cached_content, h1]
    omega
  · simp [get_cached_content, h1]

/-- Witness for C4: a fresh entry is returned, an aged entry is evicted,
and an unknown key is a miss that leaves the cache untouched. -/
theorem cache_get_spec_witness :
    get_cached_content 100 50 [("k", 7, 10)] "k" = (some 7, [("k", 7, 10)])
    ∧ get_cached_content 100 200 [("k", 7, 10)] "k" = (none, [])
    ∧ get_cached_content 100 50 [("k", 7, 10)] "other" = (none, [("k", 7, 10)]) :=
  ⟨(cache_get_spec 100 50 [("k", 7, 10)] "k").1 7 10 rfl (by decide),
   (cache_get_spec 100 200 [("k", 7, 10)] "k").2.1 7 10 rfl (by decide),
   (cache_get_spec 100 50 [("k", 7, 10)] "other").2.2 rfl⟩

/-- C5: the issued credential's payload holds the one-way hash of the key
(the token depends on the key only through the hash, so the raw key never
appears), its expiry is the issue instant plus the configured lifetime,
and the token carries a symmetric MAC over the payload keyed by the
server-held secret. -/
theorem generate_token_payload_spec (H : String → String)
    (mac : String → JwtPayload → Nat) (secret : String) (lifetime now : Nat)
    (api_key : String) :
    (generate_token H mac secret lifetime now api_key).payload.api_key = H api_key
    ∧ (generate_token H mac secret lifetime now api_key).payload.iat = now
    ∧ (generate_token H mac secret lifetime now api_key).payload.exp
        = (generate_token H mac secret lifetime now api_key).payload.iat + lifetime
    ∧ (generate_token H mac secret lifetime now api_key).sig
        = mac secret (generate_token H mac secret lifetime now api_key).payload
    ∧ (∀ k, H k = H api_key →
        generate_token H mac secret lifetime now k
          = generate_token H mac secret lifetime now api_key) := by
  refine ⟨rfl, rfl, rfl, rfl, fun k hk => ?_⟩
  simp [generate_token, hk]

/-- Witness for C5: with a concrete hash and MAC, the payload embeds the
hash of the key, and two keys with the same hash yield identical tokens. -/
theorem generate_token_payload_spec_witness :
    (generate_token hashC macC "s" 10 5 "kA").payload.api_key = hashC "kA"
    ∧ (generate_token hashC macC "s" 10 5 "kA").payload.exp
        = (generate_token hashC macC "s" 10 5 "kA").payload.iat + 10
    ∧ generate_token hashC macC "s" 10 5 "kB"
        = generate_token hashC macC "s" 10 5 "kA" :=
  ⟨(generate_token_payload_spec hashC macC "s" 10 5 "kA").1,
   (generate_token_payload_spec hashC macC "s" 10 5 "kA").2.2.1,
   (generate_token_payload_spec hashC macC "s" 10 5 "kA").2.2.2.2 "kB" rfl⟩

/-- C1: for a configured valid key, verifying the issued token before its
embedded expiry returns the payload; verifying the token with its
signature altered, or past its expiry, returns `none`. -/
theorem issue_verify_roundtrip (H : String → String) (mac : String → JwtPayload → Nat)
    (secret : String) (lifetime issuedAt now : Nat) (api_key : String) (token : JwtToken)
    (hissue : issue_token H mac secret lifetime issuedAt api_key = some token) :
    (now < token.payload.exp → verify_token mac secret now token = some token.payload)
    ∧ (∀ s, s ≠ token.sig →
        verify_token mac secret now { payload := token.payload, sig := s } = none)
    ∧ (token.payload.exp < now → verify_token mac secret now token = none) := by
  unfold issue_token at hissue
  by_cases hk : api_key ∈ API_KEYS
  · rw [if_pos hk, Option.some.injEq] at hissue
    subst hissue
    refine ⟨fun h => ?_, fun s hs => ?_, fun h => ?_⟩
    · have h' : now < issuedAt + lifetime := by simpa [generate_token] using h
      simp [verify_token, generate_token, Nat.not_le.mpr h']
    · have hs' : ¬ s = mac secret
          { api_key := H api_key, exp := issuedAt + lifetime, iat := issuedAt } := by
        simpa [generate_token] using hs
      simp [verify_token, generate_token, hs']
    · have h' : issuedAt + lifetime < now := by simpa [generate_token] using h
      simp [verify_token, generate_token, Nat.le_of_lt h']
  · rw [if_neg hk] at hissue
    exact absurd hissue (by simp)

/-- Witness for C1: with a configured key and concrete hash and MAC, the
round trip succeeds before expiry, fails on an altered signature, and
fails after expiry. -/
theorem issue_verify_roundtrip_witness :
    verify_token macC "s" 7 (generate_token hashC macC "s" 10 5 "sabda_flutter_2025_secure_key")
      = some (generate_token hashC macC "s" 10 5 "sabda_flutter_2025_secure_key").payload
    ∧ verify_token macC "s" 7
        { payload := (generate_token hashC macC "s" 10 5 "sabda_flutter_2025_secure_key").payload,
          sig := (generate_token hashC macC "s" 10 5 "sabda_flutter_2025_secure_key").sig + 1 }
        = none
    ∧ verify_token macC "s" 99 (generate_token hashC macC "s" 10 5 "sabda_flutter_2025_secure_key")
        = none :=
  ⟨(issue_verify_roundtrip hashC macC "s" 10 5 7 "sabda_flutter_2025_secure_key" _ rfl).1
      (by decide),
   (issue_verify_roundtrip hashC macC "s" 10 5 7 "sabda_flutter_2025_secure_key" _ rfl).2.1
      _ (by decide),
   (issue_verify_roundtrip hashC macC "s" 10 5 99 "sabda_flutter_2025_secure_key" _ rfl).2.2
      (by decide)⟩

/-- C10: `generate_token` is memoized on the key alone, so a second call
for the same key returns the byte-identical token of the first call; in
particular a re-issuance requested more than the token lifetime after the
first issuance returns an already-expired token. -/
theorem generate_token_memoized (H : String → String) (mac : String → JwtPayload → Nat)
    (secret : String) (lifetime now1 now2 : Nat) (api_key : String)
    (hlate : now1 + lifetime < now2) :
    (generate_token_cached H mac secret lifetime now2
        (generate_token_cached H mac secret lifetime now1 [] api_key).2 api_key).1
      = (generate_token_cached H mac secret lifetime now1 [] api_key).1
    ∧ verify_token mac secret now2
        (generate_token_cached H mac secret lifetime now2
          (generate_token_cached H mac secret lifetime now1 [] api_key).2 api_key).1
      = none := by
  have h1 : generate_token_cached H mac secret lifetime now1 [] api_key
      = (generate_token H mac secret lifetime now1 api_key,
         [(api_key, generate_token H mac secret lifetime now1 api_key)]) := by
    simp [generate_token_cached, List.lookup]
  have h2 : generate_token_cached H mac secret lifetime now2
      [(api_key, generate_token H mac secret lifetime now1 api_key)] api_key
      = (generate_token H mac secret lifetime now1 api_key,
         [(api_key, generate_token H mac secret lifetime now1 api_key)]) := by
    simp [generate_token_cached]
  rw [h1]
  refine ⟨by rw [h2], ?_⟩
  rw [h2]
  simp [verify_token, generate_token, Nat.le_of_lt hlate]

/-- Witness for C10: issuing at instant 0 with lifetime 10 and re-issuing
at instant 11 returns the first token, which no longer verifies. -/
theorem generate_token_memoized_witness :
    (generate_token_cached hashC macC "s" 10 11
        (generate_token_cached hashC macC "s" 10 0 [] "k").2 "k").1
      = (generate_token_cached hashC macC "s" 10 0 [] "k").1
    ∧ verify_token macC "s" 11
        (generate_token_cached hashC macC "s" 10 11
          (generate_token_cached hashC macC "s" 10 0 [] "k").2 "k").1
      = none :=
  generate_token_memoized hashC macC "s" 10 0 11 "k" (by decide)

/-- C3: a date parameter that does not match four decimal digits, or
whose month part is outside 01-12 or day part outside 01-31, makes the
endpoint answer with the `ValidationError` envelope, never reaching the
scraper. -/
theorem sabda_date_validation (currentYear : Int) (year : Option Int) (date : List Char)
    (hbad : isFourDigits date = false
      ∨ digitsToNat (date.take 2) < 1 ∨ 12 < digitsToNat (date.take 2)
      ∨ digitsToNat (date.drop 2) < 1 ∨ 31 < digitsToNat (date.drop 2)) :
    get_sabda_validate currentYear year (some date) = SabdaOutcome.validationError := by
  cases year with
  | none => rfl
  | some y =>
    by_cases h1 : y = 0 ∨ date = []
    · simp [get_sabda_validate, h1]
    · by_cases h2 : y < 2000 ∨ currentYear + 1 < y
      · simp [get_sabda_validate, h1, h2]
      · by_cases h3 : isFourDigits date
        · have hcond : digitsToNat (date.take 2) < 1 ∨ 12 < digitsToNat (date.take 2)
              ∨ digitsToNat (date.drop 2) < 1 ∨ 31 < digitsToNat (date.drop 2) := by
            rcases hbad with hb | hb
            · rw [h3] at hb; cases hb
            · exact hb
          simp only [get_sabda_validate]
          rw [if_neg h1, if_neg h2, if_neg (by simp [h3]), if_pos hcond]
        · simp [get_sabda_validate, h1, h2, h3]

/-- Witness for C3: a present year with month 13 in the date is rejected
as a validation error. -/
theorem sabda_date_validation_witness :
    get_sabda_validate 2025 (some 2024) (some ['1', '3', '4', '0'])
      = SabdaOutcome.validationError :=
  sabda_date_validation 2025 (some 2024) ['1', '3', '4', '0'] (by decide)

/-- C7: the record assembled by `extract_content` has `word_count` equal
to the whitespace-token count of its own `full_text`, and its
`devotional_content` is the (possibly empty) list produced by the
cleaning pass — by construction a list, never a null value. -/
theorem extract_content_invariants
    (title scripture_reference devotional_title : Option (List Char))
    (potential_paragraphs : List (List Char)) (content_text clean_text : List Char) :
    (extract_content_finalize title scripture_reference devotional_title
        potential_paragraphs content_text clean_text).word_count
      = (pySplitWs (extract_content_finalize title scripture_reference devotional_title
          potential_paragraphs content_text clean_text).full_text).length
    ∧ (extract_content_finalize title scripture_reference devotional_title
        potential_paragraphs content_text clean_text).devotional_content
      = clean_paragraphs devotional_title
          (equal_split_fallback potential_paragraphs content_text) :=
  ⟨rfl, rfl⟩

/-- C8: the extraction stage is deterministic — its result does not depend
on the ambient random stream, so two runs on the same parsed inputs return
identical records. -/
theorem extract_content_deterministic (rng1 rng2 : List Nat)
    (title scripture_reference devotional_title : Option (List Char))
    (potential_paragraphs : List (List Char)) (content_text clean_text : List Char) :
    (extract_content_run rng1 title scripture_reference devotional_title
        potential_paragraphs content_text clean_text).1
      = (extract_content_run rng2 title scripture_reference devotional_title
          potential_paragraphs content_text clean_text).1 := rfl

/-! ### Rate limiter lemmas -/

/-- Dropping at least one element makes a filter strictly shorter. -/
theorem filter_length_lt_of_mem {α : Type} {p : α → Bool} {l : List α} {a : α}
    (ha : a ∈ l) (hpa : p a = false) : (l.filter p).length < l.length := by
  induction l with
  | nil => cases ha
  | cons b t ih =>
    rcases List.mem_cons.mp ha with rfl | ha'
    · rw [List.filter_cons_of_neg (by simp [hpa])]
      exact Nat.lt_succ_of_le (List.length_filter_le ..)
    · by_cases hb : p b
      · rw [List.filter_cons_of_pos hb]
        simpa using ih ha'
      · rw [List.filter_cons_of_neg hb]
        exact Nat.lt_succ_of_le (Nat.le_of_lt (ih ha'))

/-- Running the limiter on concatenated call sequences composes. -/
theorem runLimiter_append (maxPerMinute : Nat) (ts1 ts2 window : List Nat) :
    runLimiter maxPerMinute (ts1 ++ ts2) window
      = ((runLimiter maxPerMinute ts1 window).1
            ++ (runLimiter maxPerMinute ts2 (runLimiter maxPerMinute ts1 window).2).1,
         (runLimiter maxPerMinute ts2 (runLimiter maxPerMinute ts1 window).2).2) := by
  induction ts1 generalizing window with
  | nil => simp [runLimiter]
  | cons t ts ih => simp [runLimiter, ih]

/-- While every stored instant and every call instant lie in one common
60-second interval and the total count stays within the quota, every call
is admitted and appended. -/
theorem runLimiter_all_admitted (maxPerMinute base : Nat) (ts : List Nat) :
    ∀ window : List Nat, (∀ u ∈ window, base ≤ u ∧ u < base + 60) →
    (∀ t ∈ ts, base ≤ t ∧ t < base + 60) →
    window.length + ts.length ≤ maxPerMinute →
    runLimiter maxPerMinute ts window = (List.replicate ts.length true, window ++ ts) := by
  induction ts with
  | nil => intro window _ _ _; simp [runLimiter]
  | cons t ts ih =>
    intro window hw hts hlen
    have hfilter : window.filter (fun u => decide (t - u < 60)) = window := by
      rw [List.filter_eq_self]
      intro u hu
      have h1 := hw u hu
      have h2 := hts t (List.mem_cons_self ..)
      simp only [decide_eq_true_eq]
      omega
    have hlt : ¬ maxPerMinute ≤ window.length := by
      simp only [List.length_cons] at hlen
      omega
    have hstep : rate_limit_check maxPerMinute t window = (true, window ++ [t]) := by
      simp only [rate_limit_check, hfilter]
      rw [if_neg hlt]
    have hw' : ∀ u ∈ window ++ [t], base ≤ u ∧ u < base + 60 := by
      intro u hu
      rcases List.mem_append.mp hu with h | h
      · exact hw u h
      · rcases List.mem_singleton.mp h with rfl
        exact hts _ (List.mem_cons_self ..)
    have hts' : ∀ x ∈ ts, base ≤ x ∧ x < base + 60 :=
      fun x hx => hts x (List.mem_cons_of_mem _ hx)
    have hlen' : (window ++ [t]).length + ts.length ≤ maxPerMinute := by
      simp only [List.length_append, List.length_cons, List.length_nil] at hlen ⊢
      omega
    simp only [runLimiter, hstep, ih (window ++ [t]) hw' hts' hlen',
      List.length_cons, List.replicate_succ]
    simp

/-- C2: a `rate_limit_check` call first prunes the window and then either
rejects at quota without recording, or admits and appends the instant;
consequently, starting from an empty window, `N` admissible calls inside a
60-second interval are admitted, the `(N+1)`-th call in that interval is
rejected, and once a recorded instant is more than 60 seconds in the past
(in particular the oldest one) a later call is admitted again. -/
theorem rate_limiter_window_spec (maxPerMinute base : Nat) (ts : List Nat)
    (tLast tRetry oldest : Nat)
    (hlen : ts.length = maxPerMinute)
    (hts : ∀ t ∈ ts, base ≤ t ∧ t < base + 60)
    (hLast : base ≤ tLast ∧ tLast < base + 60)
    (hold : oldest ∈ ts) (hretry : oldest + 60 < tRetry) :
    (∀ now window, maxPerMinute ≤ (window.filter (fun t => now - t < 60)).length →
        rate_limit_check maxPerMinute now window
          = (false, window.filter (fun t => now - t < 60)))
    ∧ (∀ now window, (window.filter (fun t => now - t < 60)).length < maxPerMinute →
        rate_limit_check maxPerMinute now window
          = (true, window.filter (fun t => now - t < 60) ++ [now]))
    ∧ (runLimiter maxPerMinute (ts ++ [tLast]) []).1
        = List.replicate maxPerMinute true ++ [false]
    ∧ (rate_limit_check maxPerMinute tRetry (runLimiter maxPerMinute (ts ++ [tLast]) []).2).1
        = true := by
  have hrunts : runLimiter maxPerMinute ts [] = (List.replicate ts.length true, ts) := by
    have := runLimiter_all_admitted maxPerMinute base ts []
      (by intro u hu; cases hu) hts (by simp [hlen])
    simpa using this
  have hfilterLast : ts.filter (fun t => decide (tLast - t < 60)) = ts := by
    rw [List.filter_eq_self]
    intro u hu
    have h1 := hts u hu
    simp only [decide_eq_true_eq]
    omega
  have hstepLast : rate_limit_check maxPerMinute tLast ts = (false, ts) := by
    simp only [rate_limit_check, hfilterLast]
    rw [if_pos (by omega)]
  have hrun : runLimiter maxPerMinute (ts ++ [tLast]) []
      = (List.replicate maxPerMinute true ++ [false], ts) := by
    rw [runLimiter_append, hrunts]
    simp [runLimiter, hstepLast, hlen]
  refine ⟨fun now window h => ?_, fun now window h => ?_, ?_, ?_⟩
  · simp only [rate_limit_check]
    rw [if_pos h]
  · simp only [rate_limit_check]
    rw [if_neg (by omega)]
  · rw [hrun]
  · rw [hrun]
    have hdrop : (ts.filter (fun t => decide (tRetry - t < 60))).length < maxPerMinute := by
      have := filter_length_lt_of_mem hold
        (p := fun t => decide (tRetry - t < 60)) (by simp; omega)
      omega
    simp only [rate_limit_check]
    rw [if_neg (by omega)]

/-- Witness for C2: with quota 2, calls at instants 0, 5, 10 give two
admissions then a rejection, and a call at instant 100 is admitted again. -/
theorem rate_limiter_window_spec_witness :
    (runLimiter 2 [0, 5, 10] []).1 = [true, true, false]
    ∧ (rate_limit_check 2 100 (runLimiter 2 [0, 5, 10] []).2).1 = true := by
  have h := rate_limiter_window_spec 2 0 [0, 5] 10 100 0 (by decide)
    (by decide) (by decide) (by decide) (by decide)
  exact ⟨by simpa using h.2.2.1, h.2.2.2⟩

/-- One limiter call keeps the window within the quota. -/
theorem rate_limit_check_length (maxPerMinute now : Nat) (window : List Nat)
    (h : window.length ≤ maxPerMinute) :
    (rate_limit_check maxPerMinute now window).2.length ≤ maxPerMinute := by
  have hf : (window.filter (fun t => decide (now - t < 60))).length ≤ window.length :=
    List.length_filter_le ..
  by_cases hc : maxPerMinute ≤ (window.filter (fun t => decide (now - t < 60))).length
  · simp only [rate_limit_check]
    rw [if_pos hc]
    show (window.filter (fun t => decide (now - t < 60))).length ≤ maxPerMinute
    omega
  · simp only [rate_limit_check]
    rw [if_neg hc]
    show (window.filter (fun t => decide (now - t < 60)) ++ [now]).length ≤ maxPerMinute
    simp only [List.length_append, List.length_cons, List.length_nil]
    omega

/-- Any run of the limiter from a within-quota window stays within quota. -/
theorem runLimiter_length (maxPerMinute : Nat) (ts : List Nat) :
    ∀ window : List Nat, window.length ≤ maxPerMinute →
    (runLimiter maxPerMinute ts window).2.length ≤ maxPerMinute := by
  induction ts with
  | nil => intro window h; simpa [runLimiter] using h
  | cons t ts ih =>
    intro window h
    simp only [runLimiter]
    exact ih _ (rate_limit_check_length _ _ _ h)

/-- C9: after any call of `rate_limit_check` in any reachable state of the
per-client window (every state produced by some sequence of calls starting
from the empty window), the window holds at most `MAX_REQUESTS_PER_MINUTE`
instants and every stored instant is within the trailing 60 seconds of the
call's instant. -/
theorem rate_limiter_invariant (maxPerMinute : Nat) (ts : List Nat) (now : Nat) :
    (rate_limit_check maxPerMinute now (runLimiter maxPerMinute ts []).2).2.length
        ≤ maxPerMinute
    ∧ ∀ u ∈ (rate_limit_check maxPerMinute now (runLimiter maxPerMinute ts []).2).2,
        now - u < 60 := by
  constructor
  · exact rate_limit_check_length _ _ _ (runLimiter_length _ _ _ (by simp))
  · intro u hu
    by_cases hc : maxPerMinute ≤
        ((runLimiter maxPerMinute ts []).2.filter (fun t => decide (now - t < 60))).length
    · simp only [rate_limit_check] at hu
      rw [if_pos hc] at hu
      exact of_decide_eq_true (List.mem_filter.mp hu).2
    · simp only [rate_limit_check] at hu
      rw [if_neg hc] at hu
      rcases List.mem_append.mp hu with h | h
      · exact of_decide_eq_true (List.mem_filter.mp h).2
      · rcases List.mem_singleton.mp h with rfl
        omega

/-! ### Word-splitting lemmas, towards the equal-split fallback claim -/

/-- A leading whitespace character is skipped by the splitter. -/
theorem pySplitWs_cons_ws (c : Char) (cs : List Char) (h : c.isWhitespace = true) :
    pySplitWs (c :: cs) = pySplitWs cs := by
  simp [pySplitWs, h]

/-- A single non-whitespace character is one token. -/
theorem pySplitWs_singleton (c : Char) (h : c.isWhitespace = false) :
    pySplitWs [c] = [[c]] := by
  simp [pySplitWs, h]

/-- A non-whitespace character followed by whitespace closes a token. -/
theorem pySplitWs_cons_cons (c d : Char) (cs : List Char)
    (hc : c.isWhitespace = false) (hd : d.isWhitespace = true) :
    pySplitWs (c :: d :: cs) = [c] :: pySplitWs (d :: cs) := by
  simp [pySplitWs, hc, hd]

/-- Splitting a string that starts with a non-whitespace character never
yields the empty token list. -/
theorem pySplitWs_ne_nil (d : Char) (cs : List Char) (hd : d.isWhitespace = false) :
    pySplitWs (d :: cs) ≠ [] := by
  rw [pySplitWs.eq_def]
  simp only [hd, Bool.false_eq_true, if_false]
  split
  · simp
  · split
    · simp
    · split <;> simp

/-- Two adjacent non-whitespace characters extend the same token. -/
theorem pySplitWs_cons_merge (c d : Char) (cs : List Char) (w : List Char)
    (ws : List (List Char)) (hc : c.isWhitespace = false) (hd : d.isWhitespace = false)
    (h : pySplitWs (d :: cs) = w :: ws) :
    pySplitWs (c :: d :: cs) = (c :: w) :: ws := by
  rw [pySplitWs.eq_def]
  simp only [hc, hd, Bool.false_eq_true, if_false]
  rw [h]

/-- Every token produced by the splitter is non-empty and free of
whitespace characters. -/
theorem pySplitWs_tokens (s : List Char) :
    ∀ w ∈ pySplitWs s, w ≠ [] ∧ ∀ c ∈ w, c.isWhitespace = false := by
  induction s with
  | nil => intro w hw; cases hw
  | cons c cs ih =>
    intro w hw
    by_cases hc : c.isWhitespace
    · rw [pySplitWs_cons_ws c cs hc] at hw
      exact ih w hw
    · have hc' : c.isWhitespace = false := by simpa using hc
      cases cs with
      | nil =>
        rw [pySplitWs_singleton c hc'] at hw
        rcases List.mem_singleton.mp hw with rfl
        exact ⟨by simp, by intro x hx; rcases List.mem_singleton.mp hx with rfl; exact hc'⟩
      | cons d cs2 =>
        by_cases hd : d.isWhitespace
        · rw [pySplitWs_cons_cons c d cs2 hc' hd] at hw
          rcases List.mem_cons.mp hw with rfl | hw2
          · exact ⟨by simp, by intro x hx; rcases List.mem_singleton.mp hx with rfl; exact hc'⟩
          · exact ih w hw2
        · have hd' : d.isWhitespace = false := by simpa using hd
          obtain ⟨w1, ws1, hps⟩ : ∃ w1 ws1, pySplitWs (d :: cs2) = w1 :: ws1 := by
            cases hps : pySplitWs (d :: cs2) with
            | nil => exact absurd hps (pySplitWs_ne_nil d cs2 hd')
            | cons w1 ws1 => exact ⟨w1, ws1, rfl⟩
          rw [pySplitWs_cons_merge c d cs2 w1 ws1 hc' hd' hps] at hw
          rcases List.mem_cons.mp hw with rfl | hw2
          · obtain ⟨_, hchars⟩ := ih w1 (by rw [hps]; exact List.mem_cons_self ..)
            refine ⟨by simp, ?_⟩
            intro x hx
            rcases List.mem_cons.mp hx with rfl | hx2
            · exact hc'
            · exact hchars x hx2
          · exact ih w (by rw [hps]; exact List.mem_cons_of_mem _ hw2)

/-- Appending a word (non-empty, whitespace-free) in front of a string
that is empty or starts with whitespace contributes exactly that token. -/
theorem pySplitWs_word_append (w : List Char) :
    ∀ rest : List Char, w ≠ [] → (∀ c ∈ w, c.isWhitespace = false) →
    (rest = [] ∨ ∃ d rest2, rest = d :: rest2 ∧ d.isWhitespace = true) →
    pySplitWs (w ++ rest) = w :: pySplitWs rest := by
  induction w with
  | nil => intro rest hne _ _; exact absurd rfl hne
  | cons a w ih =>
    intro rest _ hw hrest
    have ha : a.isWhitespace = false := hw a (List.mem_cons_self ..)
    cases w with
    | nil =>
      rcases hrest with rfl | ⟨d, rest2, rfl, hd⟩
      · simpa using pySplitWs_singleton a ha
      · simpa using pySplitWs_cons_cons a d rest2 ha hd
    | cons b w2 =>
      have hb : b.isWhitespace = false := hw b (by simp)
      have ihb := ih rest (by simp) (fun c hc => hw c (List.mem_cons_of_mem _ hc)) hrest
      have hshape : (b :: w2) ++ rest = b :: (w2 ++ rest) := by simp
      rw [hshape] at ihb
      have hgoal : (a :: b :: w2) ++ rest = a :: b :: (w2 ++ rest) := by simp
      rw [hgoal, pySplitWs_cons_merge a b (w2 ++ rest) (b :: w2) (pySplitWs rest) ha hb ihb]

/-- Splitting the single-space join of non-empty whitespace-free tokens
recovers exactly those tokens. -/
theorem pySplitWs_pyJoin (ws : List (List Char))
    (h : ∀ w ∈ ws, w ≠ [] ∧ ∀ c ∈ w, c.isWhitespace = false) :
    pySplitWs (pyJoin ws) = ws := by
  induction ws with
  | nil => rfl
  | cons w ws ih =>
    cases ws with
    | nil =>
      obtain ⟨hne, hchars⟩ := h w (by simp)
      have := pySplitWs_word_append w [] hne hchars (Or.inl rfl)
      simpa [pyJoin] using this
    | cons w2 ws2 =>
      obtain ⟨hne, hchars⟩ := h w (by simp)
      have hjoin : pyJoin (w :: w2 :: ws2) = w ++ ' ' :: pyJoin (w2 :: ws2) := by
        simp [pyJoin]
      rw [hjoin, pySplitWs_word_append w (' ' :: pyJoin (w2 :: ws2)) hne hchars
        (Or.inr ⟨' ', pyJoin (w2 :: ws2), rfl, by decide⟩),
        pySplitWs_cons_ws ' ' (pyJoin (w2 :: ws2)) (by decide),
        ih (fun u hu => h u (List.mem_cons_of_mem _ hu))]

/-- The join of non-empty whitespace-free tokens starts with a
non-whitespace character. -/
theorem pyJoin_head (ws : List (List Char)) (hne : ws ≠ [])
    (h : ∀ w ∈ ws, w ≠ [] ∧ ∀ c ∈ w, c.isWhitespace = false) :
    ∃ c t, pyJoin ws = c :: t ∧ c.isWhitespace = false := by
  cases ws with
  | nil => exact absurd rfl hne
  | cons w ws2 =>
    obtain ⟨hwne, hwc⟩ := h w (by simp)
    cases w with
    | nil => exact absurd rfl hwne
    | cons a w2 =>
      cases ws2 with
      | nil => exact ⟨a, w2, by simp [pyJoin], hwc a (by simp)⟩
      | cons w3 ws3 =>
        exact ⟨a, w2 ++ ' ' :: pyJoin (w3 :: ws3), by simp [pyJoin], hwc a (by simp)⟩

/-- The join of non-empty whitespace-free tokens ends with a
non-whitespace character (stated on the reversed join). -/
theorem pyJoin_reverse_head (ws : List (List Char)) (hne : ws ≠ [])
    (h : ∀ w ∈ ws, w ≠ [] ∧ ∀ c ∈ w, c.isWhitespace = false) :
    ∃ c t, (pyJoin ws).reverse = c :: t ∧ c.isWhitespace = false := by
  induction ws with
  | nil => exact absurd rfl hne
  | cons w ws2 ih =>
    cases ws2 with
    | nil =>
      obtain ⟨hwne, hwc⟩ := h w (by simp)
      obtain ⟨c, t, hct⟩ : ∃ c t, w.reverse = c :: t := by
        cases hr : w.reverse with
        | nil => exact absurd (by simpa using hr) hwne
        | cons c t => exact ⟨c, t, rfl⟩
      refine ⟨c, t, by simpa [pyJoin] using hct, ?_⟩
      have hc : c ∈ w := by
        rw [← List.mem_reverse, hct]
        exact List.mem_cons_self ..
      exact hwc c hc
    | cons w2 ws3 =>
      obtain ⟨c, t, hct, hc⟩ := ih (by simp) (fun u hu => h u (List.mem_cons_of_mem _ hu))
      refine ⟨c, t ++ ' ' :: w.reverse, ?_, hc⟩
      have hjoin : pyJoin (w :: w2 :: ws3) = w ++ ' ' :: pyJoin (w2 :: ws3) := by
        simp [pyJoin]
      rw [hjoin]
      simp [hct]

/-- Stripping is the identity on the join of non-empty whitespace-free
tokens. -/
theorem pyStrip_pyJoin (ws : List (List Char)) (hne : ws ≠ [])
    (h : ∀ w ∈ ws, w ≠ [] ∧ ∀ c ∈ w, c.isWhitespace = false) :
    pyStrip (pyJoin ws) = pyJoin ws := by
  obtain ⟨c, t, hct, hc⟩ := pyJoin_head ws hne h
  obtain ⟨c2, t2, hct2, hc2⟩ := pyJoin_reverse_head ws hne h
  unfold pyStrip
  rw [hct, List.dropWhile_cons_of_neg (by simp [hc]), ← hct, hct2,
    List.dropWhile_cons_of_neg (by simp [hc2]), ← hct2, List.reverse_reverse]

/-- Splitting an all-whitespace string yields no tokens. -/
theorem pySplitWs_all_ws (t : List Char) (h : ∀ c ∈ t, c.isWhitespace = true) :
    pySplitWs t = [] := by
  induction t with
  | nil => rfl
  | cons c cs ih =>
    rw [pySplitWs_cons_ws c cs (h c (by simp))]
    exact ih (fun u hu => h u (List.mem_cons_of_mem _ hu))

/-- Appending trailing whitespace does not change the token list. -/
theorem pySplitWs_append_ws (t : List Char) (ht : ∀ c ∈ t, c.isWhitespace = true) :
    ∀ l : List Char, pySplitWs (l ++ t) = pySplitWs l := by
  intro l
  induction l with
  | nil => simpa using pySplitWs_all_ws t ht
  | cons c cs ih =>
    by_cases hc : c.isWhitespace
    · rw [List.cons_append, pySplitWs_cons_ws c (cs ++ t) hc, ih,
        pySplitWs_cons_ws c cs hc]
    · have hc' : c.isWhitespace = false := by simpa using hc
      cases cs with
      | nil =>
        cases t with
        | nil => simp
        | cons d t2 =>
          have hd : d.isWhitespace = true := ht d (by simp)
          rw [List.cons_append, List.nil_append,
            pySplitWs_cons_cons c d t2 hc' hd, pySplitWs_singleton c hc',
            pySplitWs_all_ws (d :: t2) ht]
      | cons d cs2 =>
        by_cases hd : d.isWhitespace
        · have hshape : (c :: d :: cs2) ++ t = c :: d :: (cs2 ++ t) := by simp
          rw [hshape, pySplitWs_cons_cons c d (cs2 ++ t) hc' hd,
            pySplitWs_cons_cons c d cs2 hc' hd]
          have := ih
          rw [List.cons_append] at this
          rw [this]
        · have hd' : d.isWhitespace = false := by simpa using hd
          obtain ⟨w1, ws1, hps⟩ : ∃ w1 ws1, pySplitWs (d :: cs2) = w1 :: ws1 := by
            cases hps : pySplitWs (d :: cs2) with
            | nil => exact absurd hps (pySplitWs_ne_nil d cs2 hd')
            | cons w1 ws1 => exact ⟨w1, ws1, rfl⟩
          have hps2 : pySplitWs (d :: (cs2 ++ t)) = w1 :: ws1 := by
            have := ih
            rw [List.cons_append] at this
            rw [← hps, this]
          have hshape : (c :: d :: cs2) ++ t = c :: d :: (cs2 ++ t) := by simp
          rw [hshape, pySplitWs_cons_merge c d (cs2 ++ t) w1 ws1 hc' hd' hps2,
            pySplitWs_cons_merge c d cs2 w1 ws1 hc' hd' hps]

/-- Dropping leading whitespace does not change the token list. -/
theorem pySplitWs_dropWhile (s : List Char) :
    pySplitWs (s.dropWhile Char.isWhitespace) = pySplitWs s := by
  induction s with
  | nil => rfl
  | cons c cs ih =>
    by_cases hc : c.isWhitespace
    · rw [List.dropWhile_cons_of_pos (by simpa using hc), ih,
        pySplitWs_cons_ws c cs (by simpa using hc)]
    · rw [List.dropWhile_cons_of_neg (by simpa using hc)]

/-- Elements kept by `takeWhile` satisfy the predicate. -/
theorem mem_takeWhile_sat {α : Type} {p : α → Bool} {l : List α} :
    ∀ a ∈ l.takeWhile p, p a = true := by
  induction l with
  | nil => intro a ha; cases ha
  | cons b t ih =>
    intro a ha
    by_cases hb : p b
    · rw [List.takeWhile_cons_of_pos hb] at ha
      rcases List.mem_cons.mp ha with rfl | ha2
      · exact hb
      · exact ih a ha2
    · rw [List.takeWhile_cons_of_neg hb] at ha
      cases ha

/-- Stripping does not change the token list. -/
theorem pySplitWs_pyStrip (s : List Char) :
    pySplitWs (pyStrip s) = pySplitWs s := by
  have hdecomp :
      ((s.dropWhile Char.isWhitespace).reverse.dropWhile Char.isWhitespace).reverse
        ++ ((s.dropWhile Char.isWhitespace).reverse.takeWhile Char.isWhitespace).reverse
      = s.dropWhile Char.isWhitespace := by
    rw [← List.reverse_append, List.takeWhile_append_dropWhile, List.reverse_reverse]
  have hws : ∀ c ∈ ((s.dropWhile Char.isWhitespace).reverse.takeWhile
      Char.isWhitespace).reverse, c.isWhitespace = true := by
    intro c hc
    exact mem_takeWhile_sat c (List.mem_reverse.mp hc)
  calc pySplitWs (pyStrip s)
      = pySplitWs (pyStrip s
          ++ ((s.dropWhile Char.isWhitespace).reverse.takeWhile Char.isWhitespace).reverse) :=
        (pySplitWs_append_ws _ hws _).symm
    _ = pySplitWs (s.dropWhile Char.isWhitespace) := by rw [pyStrip, hdecomp]
    _ = pySplitWs s := pySplitWs_dropWhile s

/-- Unfolding of the equal-split branch for a more-than-150-word body. -/
theorem equal_split_three (potential : List (List Char)) (content_text : List Char)
    (hp : potential.length ≤ 1) (hne : content_text ≠ [])
    (h150 : 150 < (pySplitWs content_text).length) :
    equal_split_fallback potential content_text
      = [pyStrip (pyJoin ((pySplitWs content_text).take
            ((pySplitWs content_text).length / 3))),
         pyStrip (pyJoin (((pySplitWs content_text).drop
            ((pySplitWs content_text).length / 3)).take
            ((pySplitWs content_text).length / 3))),
         pyStrip (pyJoin ((pySplitWs content_text).drop
            (2 * ((pySplitWs content_text).length / 3))))] := by
  unfold equal_split_fallback
  rw [if_pos (And.intro hp hne)]
  simp only []
  rw [if_pos h150]

/-- Unfolding of the equal-split branch for an at-most-150-word body. -/
theorem equal_split_one (potential : List (List Char)) (content_text : List Char)
    (hp : potential.length ≤ 1) (hne : content_text ≠ [])
    (h150 : (pySplitWs content_text).length ≤ 150) :
    equal_split_fallback potential content_text = [pyStrip content_text] := by
  unfold equal_split_fallback
  rw [if_pos (And.intro hp hne)]
  simp only []
  rw [if_neg (by omega)]

/-- C6 (amended): whenever the sentence-based fallback yields at most one
paragraph and the reconstructed body text is non-empty, a body of more
than 150 words produces exactly three paragraphs whose word sequences are
contiguous slices of the body's word sequence — the first two of
`n / 3` words each and the third the remaining words — before the final
post-cleaning pass; a non-empty body of at most 150 words instead yields
the whole stripped body, with unchanged word sequence, as the single
candidate paragraph.  (When the body is empty, the sentence-based
paragraph list is kept unchanged; see the counterexample.) -/
theorem equal_split_fallback_spec (potential : List (List Char)) (content_text : List Char)
    (hp : potential.length ≤ 1) (hne : content_text ≠ []) :
    (150 < (pySplitWs content_text).length →
      (equal_split_fallback potential content_text).length = 3
      ∧ (equal_split_fallback potential content_text).map pySplitWs
        = [(pySplitWs content_text).take ((pySplitWs content_text).length / 3),
           ((pySplitWs content_text).drop ((pySplitWs content_text).length / 3)).take
              ((pySplitWs content_text).length / 3),
           (pySplitWs content_text).drop (2 * ((pySplitWs content_text).length / 3))]
      ∧ ((pySplitWs content_text).take ((pySplitWs content_text).length / 3)).length
          = (pySplitWs content_text).length / 3
      ∧ (((pySplitWs content_text).drop ((pySplitWs content_text).length / 3)).take
            ((pySplitWs content_text).length / 3)).length
          = (pySplitWs content_text).length / 3
      ∧ (pySplitWs content_text).take ((pySplitWs content_text).length / 3)
          ++ ((pySplitWs content_text).drop ((pySplitWs content_text).length / 3)).take
              ((pySplitWs content_text).length / 3)
          ++ (pySplitWs content_text).drop (2 * ((pySplitWs content_text).length / 3))
          = pySplitWs content_text)
    ∧ ((pySplitWs content_text).length ≤ 150 →
        equal_split_fallback potential content_text = [pyStrip content_text]
        ∧ pySplitWs (pyStrip content_text) = pySplitWs content_text) := by
  have htok := pySplitWs_tokens content_text
  constructor
  · intro h150
    have heq := equal_split_three potential content_text hp hne h150
    generalize hws : pySplitWs content_text = ws at heq htok h150 ⊢
    have hk1 : (ws.take (ws.length / 3)).length = ws.length / 3 := by
      rw [List.length_take]
      omega
    have hk2 : ((ws.drop (ws.length / 3)).take (ws.length / 3)).length = ws.length / 3 := by
      rw [List.length_take, List.length_drop]
      omega
    have hk3 : (ws.drop (2 * (ws.length / 3))).length = ws.length - 2 * (ws.length / 3) := by
      rw [List.length_drop]
    have htok1 : ∀ w ∈ ws.take (ws.length / 3), w ≠ [] ∧ ∀ c ∈ w, c.isWhitespace = false :=
      fun w hw => htok w (List.take_subset _ _ hw)
    have htok2 : ∀ w ∈ (ws.drop (ws.length / 3)).take (ws.length / 3),
        w ≠ [] ∧ ∀ c ∈ w, c.isWhitespace = false :=
      fun w hw => htok w (List.drop_subset _ _ (List.take_subset _ _ hw))
    have htok3 : ∀ w ∈ ws.drop (2 * (ws.length / 3)),
        w ≠ [] ∧ ∀ c ∈ w, c.isWhitespace = false :=
      fun w hw => htok w (List.drop_subset _ _ hw)
    have hne1 : ws.take (ws.length / 3) ≠ [] := by
      rw [← List.length_pos]
      omega
    have hne2 : (ws.drop (ws.length / 3)).take (ws.length / 3) ≠ [] := by
      rw [← List.length_pos]
      omega
    have hne3 : ws.drop (2 * (ws.length / 3)) ≠ [] := by
      rw [← List.length_pos]
      omega
    have hstrip1 := pyStrip_pyJoin _ hne1 htok1
    have hstrip2 := pyStrip_pyJoin _ hne2 htok2
    have hstrip3 := pyStrip_pyJoin _ hne3 htok3
    have hsplit1 := pySplitWs_pyJoin _ htok1
    have hsplit2 := pySplitWs_pyJoin _ htok2
    have hsplit3 := pySplitWs_pyJoin _ htok3
    refine ⟨by rw [heq]; rfl, ?_, hk1, hk2, ?_⟩
    · rw [heq]
      simp only [List.map_cons, List.map_nil, hstrip1, hstrip2, hstrip3,
        hsplit1, hsplit2, hsplit3]
    · have hdd : ws.drop (2 * (ws.length / 3))
          = (ws.drop (ws.length / 3)).drop (ws.length / 3) := by
        rw [List.drop_drop]
        congr 1
        omega
      rw [hdd, List.append_assoc, List.take_append_drop, List.take_append_drop]
  · intro h150
    exact ⟨equal_split_one potential content_text hp hne h150, pySplitWs_pyStrip content_text⟩

/-- Counterexample for C6 as stated: when the reconstructed body is empty
(and thus has at most 150 words) while the sentence-based pass produced no
paragraph, the code keeps the empty paragraph list instead of yielding the
whole body as a single candidate paragraph. -/
theorem equal_split_fallback_counterexample :
    equal_split_fallback [] [] = [] ∧ ([] : List (List Char)) ≠ [pyStrip []] := by
  constructor
  · decide
  · decide

/-- Witness for C6: a two-character one-word body below the 150-word bound
is returned whole (stripped) as the single candidate paragraph. -/
theorem equal_split_fallback_spec_witness :
    equal_split_fallback [] ['h', 'i'] = [pyStrip ['h', 'i']]
    ∧ pySplitWs (pyStrip ['h', 'i']) = pySplitWs ['h', 'i'] :=
  (equal_split_fallback_spec [] ['h', 'i'] (by decide) (by decide)).2 (by decide)

end Sabda
